import Mathlib

/-!
Verification development for the obsidian-memories media gallery plugin
(src/main.js).  The JavaScript program is shallowly embedded: JS `Map`
objects become association lists in insertion order, class methods become
Lean functions on explicit state, asynchronous callbacks become explicit
event sequences, and code that can throw returns `Except`.
-/

/-! ## JS `Map` model (insertion-ordered association list, string keys) -/

/-- JS `Map.prototype.has`: membership test by key. -/
def mapHas (m : List (String × String)) (k : String) : Bool :=
  m.any (fun p => p.1 == k)

/-- JS `Map.prototype.get`: value of the entry with key `k`, if any. -/
def mapLookup (m : List (String × String)) (k : String) : Option String :=
  (m.find? (fun p => p.1 == k)).map Prod.snd

/-- JS `Map.prototype.delete`: removes the entry with key `k` (a JS map
holds at most one entry per key, so removing all matches is the same). -/
def mapDelete (m : List (String × String)) (k : String) : List (String × String) :=
  m.filter (fun p => !(p.1 == k))

/-- JS `Map.prototype.set`: updates the existing entry in place, or appends
a new one at the end of the insertion order. -/
def mapSet (m : List (String × String)) (k v : String) : List (String × String) :=
  if mapHas m k then m.map (fun p => if p.1 == k then (k, v) else p)
  else m ++ [(k, v)]

/-- JS `map.keys().next().value`: the first inserted key, `none` on an empty
map (JS yields `undefined`). -/
def mapFirstKey (m : List (String × String)) : Option String :=
  m.head?.map Prod.fst

/-! ## class LRUCache (src/main.js lines 3-30) -/

/-- State of an `LRUCache` instance: the fixed capacity and the backing
`Map` in insertion order. -/
structure LRUCache where
  maxSize : Nat
  cache : List (String × String)
deriving DecidableEq, Repr

/-- `LRUCache.prototype.get` (lines 9-15): a miss returns `undefined`; a hit
deletes and re-inserts the entry (moving it to most-recently-used position)
and returns the value. -/
def LRUCache.get (c : LRUCache) (key : String) : Option String × LRUCache :=
  if !(mapHas c.cache key) then (none, c)
  else
    match mapLookup c.cache key with
    | none => (none, c)
    | some value =>
        (some value, { c with cache := mapSet (mapDelete c.cache key) key value })

/-- `LRUCache.prototype.set` (lines 17-25): an existing key is deleted
first; otherwise, at capacity, the first (least recently used) key is
deleted; then the entry is appended. -/
def LRUCache.set (c : LRUCache) (key value : String) : LRUCache :=
  let cache1 :=
    if mapHas c.cache key then
      mapDelete c.cache key
    else if c.maxSize ≤ c.cache.length then
      match mapFirstKey c.cache with
      | some firstKey => mapDelete c.cache firstKey
      | none => c.cache
    else c.cache
  { c with cache := mapSet cache1 key value }

/-- `LRUCache.prototype.clear` (lines 27-29). -/
def LRUCache.clear (c : LRUCache) : LRUCache :=
  { c with cache := [] }

/-! ## Operation sequences on the cache -/

/-- One externally invoked cache operation. -/
inductive LRUOp
  | get (key : String)
  | set (key value : String)
deriving DecidableEq, Repr

/-- Run one operation (the result value of a `get` is discarded). -/
def LRUCache.runOp (c : LRUCache) : LRUOp → LRUCache
  | .get k => (c.get k).2
  | .set k v => c.set k v

/-- Run a sequence of operations left to right. -/
def LRUCache.runOps (c : LRUCache) (ops : List LRUOp) : LRUCache :=
  ops.foldl LRUCache.runOp c

/-- Whether an operation mentions (gets or sets) the key `k`. -/
def LRUOp.touches (op : LRUOp) (k : String) : Bool :=
  match op with
  | .get k' => k' == k
  | .set k' _ => k' == k

/-- One-based position of the last operation in `ops` that touches `k`
(0 when no operation does).  Larger means more recently touched. -/
def lastTouchN : List LRUOp → String → Nat
  | [], _ => 0
  | op :: rest, k =>
      let n := lastTouchN rest k
      if n = 0 then (if op.touches k then 1 else 0) else n + 1

/-- Recency order on cache entries induced by an operation history. -/
def recencyLT (ops : List LRUOp) (p q : String × String) : Prop :=
  lastTouchN ops p.1 < lastTouchN ops q.1

/-- Invariant tying a cache reached by `ops` to the history: keys are
distinct, the size is bounded, every entry was touched, and insertion
order is exactly the order of last touches. -/
def CacheInv (maxSize : Nat) (ops : List LRUOp) (m : List (String × String)) : Prop :=
  (m.map Prod.fst).Nodup ∧
  m.length ≤ maxSize ∧
  (∀ p ∈ m, 0 < lastTouchN ops p.1) ∧
  m.Pairwise (recencyLT ops)

/-- The operation list that inserts each given pair once, in order. -/
def setsOf (l : List (String × String)) : List LRUOp :=
  l.map (fun p => LRUOp.set p.1 p.2)

/-! ## JS dynamic method dispatch on the LRUCache instance -/

/-- Names of the instance methods declared by `class LRUCache`
(src/main.js lines 3-30): a constructor, `get`, `set` and `clear` only.
In particular no `has` method is declared anywhere in the class. -/
def LRUCache.methodNames : List String :=
  ["constructor", "get", "set", "clear"]

/-- JS method invocation `this.thumbnailCache.<m>(...)`: accessing a
property that the class does not define yields `undefined`, and calling it
throws a `TypeError`. -/
def jsCallMethod (methods : List String) (m : String) : Except String Unit :=
  if m ∈ methods then .ok ()
  else .error ("TypeError: this.thumbnailCache." ++ m ++ " is not a function")

/-! ## getVideoThumbnailWorker / getVideoThumbnailFallback
(src/main.js lines 168-259), synchronous control flow -/

/-- Result of the synchronous part of `getVideoThumbnailFallback`. -/
inductive FallbackStep
  | cachedValue (v : Option String)
  | mainThreadCapture
deriving DecidableEq, Repr

/-- `getVideoThumbnailFallback` entry (lines 211-258): first a cache check
via `this.thumbnailCache.has(file.path)` (line 212), then the main-thread
video capture whose outcome is decided by the host environment.  The
membership test in the guarded branch is the `Map` semantics the call site
assumes of `has`; the branch is reachable only if `has` resolves. -/
def getVideoThumbnailFallback (cache : LRUCache) (filePath : String) :
    Except String (FallbackStep × LRUCache) := do
  jsCallMethod LRUCache.methodNames "has"
  if mapHas cache.cache filePath then
    let r := cache.get filePath
    return (.cachedValue r.1, r.2)
  return (.mainThreadCapture, cache)

/-- Result of the synchronous part of `getVideoThumbnailWorker`. -/
inductive ThumbRequestStep
  | cachedHit (v : Option String)
  | fallbackNoSlot (s : FallbackStep)
  | dispatched (slot : Nat)
deriving DecidableEq, Repr

/-- `getVideoThumbnailWorker` entry (lines 168-208): cache check via
`this.thumbnailCache.has(file.path)` (line 169, returning the cached value
through `get` on a hit, line 170), then a scan for an idle worker slot
(line 173, `busyFlags` lists the `busy` flag of each pool slot), falling
back when none is idle (line 175) and otherwise dispatching to the found
slot (lines 178-208, modelled separately as an event machine). -/
def getVideoThumbnailWorker (cache : LRUCache) (busyFlags : List Bool)
    (filePath : String) : Except String (ThumbRequestStep × LRUCache) := do
  jsCallMethod LRUCache.methodNames "has"
  if mapHas cache.cache filePath then
    let r := cache.get filePath
    return (.cachedHit r.1, r.2)
  match busyFlags.findIdx? (fun b => !b) with
  | none =>
      let r ← getVideoThumbnailFallback cache filePath
      return (.fallbackNoSlot r.1, r.2)
  | some i => return (.dispatched i, cache)

/-! ## The dispatched request (promise executor, src/main.js lines 178-208)

One request dispatched to a worker slot, driven by the events that can
reach it: worker `message` events and the firing of the 5-second watchdog
`setTimeout`.  The source never calls `clearTimeout`, so every complete
timeline contains exactly one `timerFire` event. -/

/-- Which handler settled the request promise. -/
inductive ResolveSrc
  | workerThumbnail (t : String)
  | workerError
  | watchdogTimeout
deriving DecidableEq, Repr

/-- Observable state of one dispatched request and its slot. -/
structure DispatchState where
  busy : Bool
  listenerAttached : Bool
  timerPending : Bool
  resolvedVia : Option ResolveSrc
  idleMarkings : Nat
  fallbackInvocations : Nat
  cache : LRUCache
deriving DecidableEq, Repr

/-- State right after dispatch: the slot was claimed (line 180), the
message listener attached (line 196) and the watchdog scheduled (203). -/
def initialDispatch (cache : LRUCache) : DispatchState :=
  { busy := true, listenerAttached := true, timerPending := true,
    resolvedVia := none, idleMarkings := 0, fallbackInvocations := 0,
    cache := cache }

/-- `resolve`: settling an already-settled promise discards the value. -/
def resolveOnce (s : DispatchState) (src : ResolveSrc) : DispatchState :=
  match s.resolvedVia with
  | some _ => s
  | none => { s with resolvedVia := some src }

/-- Events that can reach the dispatched request. -/
inductive DispatchEvent
  | workerMessage (eid : String) (thumbnail : Option String)
  | timerFire
deriving DecidableEq, Repr

/-- One event step.  A `message` event runs `messageHandler` (lines
182-194) only while the listener is attached, and its body only on a
matching correlation id: it detaches the listener, marks the slot idle,
and resolves with the thumbnail (caching it, line 188) or by invoking the
fallback (line 191).  The watchdog callback (lines 203-207) detaches the
listener, marks the slot idle and resolves by invoking the fallback; the
timer was never cleared, so it fires regardless of any earlier response. -/
def dispatchStep (reqId filePath : String) (s : DispatchState) :
    DispatchEvent → DispatchState
  | .workerMessage eid thumbnail =>
      if s.listenerAttached then
        if eid == reqId then
          let s1 := { s with listenerAttached := false, busy := false,
                             idleMarkings := s.idleMarkings + 1 }
          match thumbnail with
          | some t =>
              resolveOnce { s1 with cache := s1.cache.set filePath t }
                (.workerThumbnail t)
          | none =>
              resolveOnce
                { s1 with fallbackInvocations := s1.fallbackInvocations + 1 }
                .workerError
        else s
      else s
  | .timerFire =>
      if s.timerPending then
        resolveOnce
          { s with timerPending := false, listenerAttached := false,
                   busy := false, idleMarkings := s.idleMarkings + 1,
                   fallbackInvocations := s.fallbackInvocations + 1 }
          .watchdogTimeout
      else s

/-- Run a dispatched request against a timeline of events. -/
def runDispatch (reqId filePath : String) (cache : LRUCache)
    (events : List DispatchEvent) : DispatchState :=
  events.foldl (dispatchStep reqId filePath) (initialDispatch cache)

/-! ## Media files and the pending-request set
(`loadMediaElement`, src/main.js lines 401-442) -/

/-- The identity of a media file as read from the vault. -/
structure MediaFile where
  name : String
  path : String
deriving DecidableEq, Repr

/-- `pendingRequests.set(key, true)` on the pending-request `Map`,
restricted to its key set. -/
def pendingAdd (pending : List String) (k : String) : List String :=
  if k ∈ pending then pending else pending ++ [k]

/-- `pendingRequests.delete(key)`. -/
def pendingRemove (pending : List String) (k : String) : List String :=
  pending.filter (fun x => !(x == k))

/-- What one `loadMediaElement` call did. -/
inductive LoadOutcome
  | earlyReturn
  | noopPending
  | completed (errorShown : Bool)
deriving DecidableEq, Repr

/-- The synchronous entry of `loadMediaElement` (lines 414-421): no file
resolves to an early return; a path already pending is a silent no-op;
otherwise the path is registered.  There is no suspension point between
the membership check (line 417) and the registration (line 421), so the
two form one atomic step of the single-threaded host loop. -/
def loadEnter (pending : List String) (path : String) : Bool × List String :=
  if path ∈ pending then (false, pending)
  else (true, pendingAdd pending path)

/-- The `finally` clause of `loadMediaElement` (line 440): the path is
removed from the pending set, on every exit path of the `try` body. -/
def loadExit (pending : List String) (path : String) : List String :=
  pendingRemove pending path

/-- Whole-call summary of `loadMediaElement` (lines 401-442).  The `try`
body (lines 423-435: clearing the cell and dispatching to the image,
video or audio loader) acts on the DOM and never touches
`pendingRequests`; `bodyThrows` records whether it raised, in which case
the `catch` (lines 436-438) shows the per-cell error state.  The
`finally` runs in both cases. -/
def loadMediaElement (pending : List String) (file : Option MediaFile)
    (bodyThrows : Bool) : LoadOutcome × List String :=
  match file with
  | none => (.earlyReturn, pending)
  | some f =>
      match loadEnter pending f.path with
      | (false, p) => (.noopPending, p)
      | (true, p) => (.completed bodyThrows, loadExit p f.path)

/-! ## The lightbox state object (src/main.js lines 1087-1096) -/

/-- The mutable `state` object created by `openMediaLightbox`, restricted
to the fields the delete/navigate logic reads or writes.  The flags record
whether the `onFileDeleted` callback and the `galleryContainer`
back-reference were supplied. -/
structure LightboxState where
  currentIndex : Int
  mediaFiles : List MediaFile
  randomMode : Bool
  slideshowActive : Bool
  slideshowInterval : Option Nat
  hasOnFileDeleted : Bool
  hasGalleryContainer : Bool
deriving DecidableEq, Repr

/-- JS array subscript `files[i]`: `undefined` outside the bounds. -/
def jsIndex (files : List MediaFile) (i : Int) : Option MediaFile :=
  if 0 ≤ i then files[i.toNat]? else none

/-- JS `files.splice(i, 1)` for an index known to be in bounds: removes
the element at position `i`. -/
def jsSplice (files : List MediaFile) (i : Int) : List MediaFile :=
  if 0 ≤ i then files.take i.toNat ++ files.drop (i.toNat + 1) else files

/-! ## closeLightbox (src/main.js lines 1300-1318) -/

/-- Externally visible effects of one `closeLightbox` call. -/
structure CloseEffects where
  slideshowTimerCleared : Bool
  cleanupDispatched : Bool
  overlayRemoved : Bool
  refreshesScheduled : Nat
deriving DecidableEq, Repr

/-- `closeLightbox`: clears the slideshow interval when one is set (lines
1301-1303); when the overlay element exists, dispatches its `cleanup`
event (detaching the keydown and wheel listeners) and removes it (lines
1305-1309); and, whenever both the gallery back-reference and the
`onFileDeleted` callback are present, schedules one deferred refresh
notification (lines 1313-1317).  The `state` object itself is not
written. -/
def closeLightbox (state : LightboxState) (overlayPresent : Bool) : CloseEffects :=
  { slideshowTimerCleared := state.slideshowInterval.isSome
  , cleanupDispatched := overlayPresent
  , overlayRemoved := overlayPresent
  , refreshesScheduled :=
      if state.hasGalleryContainer && state.hasOnFileDeleted then 1 else 0 }

/-! ## deleteCurrentFile (src/main.js lines 998-1034) -/

/-- How the external `vault.delete` call behaves.  It is an asynchronous
API; the source does not `await` it, so only a synchronously thrown error
can reach the surrounding `try`/`catch` — a rejected promise is never
observed by this function. -/
inductive VaultDeleteBehavior
  | success
  | syncThrow (msg : String)
  | asyncReject (msg : String)
deriving DecidableEq, Repr

/-- Externally visible effects of one `deleteCurrentFile` call. -/
structure DeleteEffects where
  confirmPrompted : Bool
  vaultDeleteCalled : Bool
  unhandledRejection : Bool
  notices : List String
  refreshesScheduled : Nat
  lightboxClosed : Bool
  mediaRerendered : Bool
deriving DecidableEq, Repr

/-- Effects of a call that did nothing. -/
def noDeleteEffects : DeleteEffects :=
  { confirmPrompted := false, vaultDeleteCalled := false,
    unhandledRejection := false, notices := [], refreshesScheduled := 0,
    lightboxClosed := false, mediaRerendered := false }

/-- `deleteCurrentFile`: returns at once when no file sits at
`currentIndex` (lines 999-1000) or the user declines the confirm dialog
(line 1002).  Otherwise `vault.delete` is invoked (line 1005, without
`await`); a synchronous throw lands in the `catch` (lines 1029-1032),
which shows an error notice and skips every mutation.  Otherwise the file
is spliced out of the list (line 1008); an emptied list closes the
lightbox (lines 1010-1012), otherwise the index is clamped and the media
re-rendered (lines 1014-1018); and lines 1021-1027 always schedule one
more deferred refresh when the gallery back-reference and callback are
present — in addition to the one `closeLightbox` scheduled. -/
def deleteCurrentFile (state : LightboxState) (confirmAnswer : Bool)
    (vb : VaultDeleteBehavior) (overlayPresent : Bool) :
    LightboxState × DeleteEffects :=
  match jsIndex state.mediaFiles state.currentIndex with
  | none => (state, noDeleteEffects)
  | some _ =>
      if !confirmAnswer then
        (state, { noDeleteEffects with confirmPrompted := true })
      else
        match vb with
        | .syncThrow msg =>
            (state,
              { confirmPrompted := true, vaultDeleteCalled := true,
                unhandledRejection := false,
                notices := ["Error deleting file: " ++ msg],
                refreshesScheduled := 0, lightboxClosed := false,
                mediaRerendered := false })
        | vb' =>
            let rejected := match vb' with
              | .asyncReject _ => true
              | _ => false
            let files2 := jsSplice state.mediaFiles state.currentIndex
            let alwaysRefresh :=
              if state.hasGalleryContainer && state.hasOnFileDeleted then 1 else 0
            if files2.length = 0 then
              let state2 := { state with mediaFiles := files2 }
              let ce := closeLightbox state2 overlayPresent
              (state2,
                { confirmPrompted := true, vaultDeleteCalled := true,
                  unhandledRejection := rejected,
                  notices := ["File deleted. Gallery is now empty."],
                  refreshesScheduled := ce.refreshesScheduled + alwaysRefresh,
                  lightboxClosed := true, mediaRerendered := false })
            else
              let clamped := min state.currentIndex ((files2.length : Int) - 1)
              let state2 :=
                { state with mediaFiles := files2, currentIndex := clamped }
              (state2,
                { confirmPrompted := true, vaultDeleteCalled := true,
                  unhandledRejection := rejected,
                  notices := ["File deleted successfully."],
                  refreshesScheduled := alwaysRefresh,
                  lightboxClosed := false, mediaRerendered := true })

/-! ## Plugin-level caches: createGallery / refreshCurrentGallery
(src/main.js lines 261-268 and 533-564) -/

/-- The plugin-owned process-wide state the gallery render touches. -/
structure PluginState where
  thumbnailCache : LRUCache
  pendingRequests : List String
deriving DecidableEq, Repr

/-- The plugin-state effects of `createGallery` (lines 261-268): the
thumbnail cache and the pending-request map are cleared unconditionally
before anything else.  The remainder of the function (lines 269-303)
builds DOM and discovers files through the vault and never writes these
two fields directly; later cache writes happen only inside the separately
modelled asynchronous loaders. -/
def createGallery (s : PluginState) : PluginState :=
  { thumbnailCache := s.thumbnailCache.clear, pendingRequests := [] }

/-- The plugin-state effects of `refreshCurrentGallery` (lines 533-564):
a missing container returns at once (line 534); when the container still
has its parent element, saved config and context (line 541), the parent
is emptied and `createGallery` re-runs against it (line 550) — including
its unconditional cache clear. -/
def refreshCurrentGallery (s : PluginState) (hasGalleryContainer hasParentEl
    hasConfig hasCtx : Bool) : PluginState :=
  if !hasGalleryContainer then s
  else if hasParentEl && hasConfig && hasCtx then createGallery s
  else s

/-! ## navigate / getRandomIndex (src/main.js lines 1363-1379) -/

/-- JS remainder operator `%`: truncated remainder (sign of the
dividend).  All claimed uses have a nonnegative dividend and a positive
divisor; a zero divisor (an empty file list) yields `NaN` in JS and is
outside every claimed domain. -/
def jsRem (a b : Int) : Int :=
  Int.tmod a b

/-- `getRandomIndex` (lines 1363-1369): a do-while loop drawing
`Math.floor(Math.random() * length)` until the draw differs from the
current index or at most one file remains.  `draws` is the stream of
values the host's `Math.random` produces; `none` models the loop running
out of the supplied stream (it would keep drawing). -/
def getRandomIndex (cur : Int) (len : Nat) (draws : List Int) : Option Int :=
  match draws with
  | [] => none
  | d :: rest => if d = cur ∧ 1 < len then getRandomIndex cur len rest else some d

/-- `navigate` (lines 1371-1379): random mode defers to `getRandomIndex`;
otherwise the index advances by `direction` with wraparound via the JS
remainder.  The subsequent `updateMedia` call only re-renders the DOM
from the updated state. -/
def navigate (state : LightboxState) (direction : Int) (draws : List Int) :
    LightboxState :=
  if state.randomMode then
    match getRandomIndex state.currentIndex state.mediaFiles.length draws with
    | some i => { state with currentIndex := i }
    | none => state
  else
    let len : Int := state.mediaFiles.length
    { state with currentIndex := jsRem (state.currentIndex + direction + len) len }

/-! ## openMediaLightbox prelude (src/main.js lines 1083-1292) -/

/-- Document-level residue of lightbox instances: how many overlay
elements exist, and whether the previously opened instance's slideshow
interval, document-level keydown listener and overlay-level wheel
listener are still registered. -/
structure LightboxDocWorld where
  overlayCount : Nat
  oldSlideshowTimerActive : Bool
  oldKeydownListenerAttached : Bool
  oldWheelListenerAttached : Bool
deriving DecidableEq, Repr

/-- Opening a lightbox (lines 1083-1292) as seen by the document: the
existing overlay element, if any, is removed with a plain
`element.remove()` (lines 1084-1085) — its `cleanup` event is not
dispatched, so the old instance's interval and listeners are untouched —
and then the new overlay is built and appended (line 1250) with its own
fresh listeners. -/
def openMediaLightboxPrelude (w : LightboxDocWorld) : LightboxDocWorld :=
  let w1 :=
    if w.overlayCount = 0 then w
    else { w with overlayCount := w.overlayCount - 1 }
  { w1 with overlayCount := w1.overlayCount + 1 }

/-! ## Helper lemmas about the `Map` model -/

theorem mapHas_iff_mem (m : List (String × String)) (k : String) :
    mapHas m k = true ↔ k ∈ m.map Prod.fst := by
  simp [mapHas, List.any_eq_true, List.mem_map]

theorem mapHas_eq_false_iff (m : List (String × String)) (k : String) :
    mapHas m k = false ↔ k ∉ m.map Prod.fst := by
  rw [← mapHas_iff_mem]
  cases mapHas m k <;> simp

theorem mapDelete_sublist (m : List (String × String)) (k : String) :
    List.Sublist (mapDelete m k) m :=
  List.filter_sublist m

theorem mapHas_mapDelete_self (m : List (String × String)) (k : String) :
    mapHas (mapDelete m k) k = false := by
  rw [mapHas_eq_false_iff]
  intro hmem
  rcases List.mem_map.mp hmem with ⟨p, hp, hpk⟩
  have := List.of_mem_filter hp
  simp [hpk] at this

theorem mapHas_mapDelete_ne (m : List (String × String)) (k k' : String)
    (h : k' ≠ k) : mapHas (mapDelete m k) k' = mapHas m k' := by
  rcases hm : mapHas m k' with _ | _
  · rw [mapHas_eq_false_iff] at hm ⊢
    intro hmem
    rcases List.mem_map.mp hmem with ⟨p, hp, hpk⟩
    exact hm (List.mem_map.mpr ⟨p, List.mem_of_mem_filter hp, hpk⟩)
  · rw [mapHas_iff_mem] at hm ⊢
    rcases List.mem_map.mp hm with ⟨p, hp, hpk⟩
    refine List.mem_map.mpr ⟨p, List.mem_filter.mpr ⟨hp, ?_⟩, hpk⟩
    simp [hpk, h]

theorem mapSet_of_not_has (m : List (String × String)) (k v : String)
    (h : mapHas m k = false) : mapSet m k v = m ++ [(k, v)] := by
  simp [mapSet, h]

theorem mapDelete_length_lt (m : List (String × String)) (k : String)
    (h : mapHas m k = true) : (mapDelete m k).length < m.length := by
  rw [mapHas_iff_mem] at h
  rcases List.mem_map.mp h with ⟨p, hp, hpk⟩
  exact List.length_filter_lt_length_iff_exists.mpr ⟨p, hp, by simp [hpk]⟩

theorem mapDelete_length_succ (m : List (String × String)) (k : String)
    (hnd : (m.map Prod.fst).Nodup) (h : mapHas m k = true) :
    (mapDelete m k).length + 1 = m.length := by
  induction m with
  | nil => simp [mapHas] at h
  | cons p rest ih =>
      rcases hnd with _ | ⟨hq, hnd'⟩
      by_cases hpk : p.1 = k
      · have hrest : mapHas rest k = false := by
          rw [mapHas_eq_false_iff]
          intro hmem
          rcases List.mem_map.mp hmem with ⟨q, hq', hqk⟩
          subst hpk
          exact (hq q.1 (List.mem_map.mpr ⟨q, hq', rfl⟩)) hqk.symm
        have : mapDelete (p :: rest) k = mapDelete rest k := by
          simp [mapDelete, hpk]
        rw [this]
        have hself : mapDelete rest k = rest := by
          apply List.filter_eq_self.mpr
          intro a ha
          have : a.1 ≠ k := by
            rw [mapHas_eq_false_iff] at hrest
            intro hak
            exact hrest (List.mem_map.mpr ⟨a, ha, hak⟩)
          simp [this]
        rw [hself]
        simp
      · have hstep : mapDelete (p :: rest) k = p :: mapDelete rest k := by
          simp [mapDelete, hpk]
        have hrest : mapHas rest k = true := by
          rw [mapHas_iff_mem] at h ⊢
          rcases List.mem_map.mp h with ⟨q, hq', hqk⟩
          rcases List.mem_cons.mp hq' with rfl | hq''
          · exact absurd hqk hpk
          · exact List.mem_map.mpr ⟨q, hq'', hqk⟩
        rw [hstep]
        simp only [List.length_cons]
        have := ih hnd' hrest
        omega

theorem mapDelete_head (p : String × String) (rest : List (String × String))
    (hnd : ((p :: rest).map Prod.fst).Nodup) :
    mapDelete (p :: rest) p.1 = rest := by
  rcases hnd with _ | ⟨hq, hnd'⟩
  have h1 : mapDelete (p :: rest) p.1 = mapDelete rest p.1 := by
    simp [mapDelete, List.filter_cons]
  rw [h1]
  apply List.filter_eq_self.mpr
  intro a ha
  have : a.1 ≠ p.1 := fun hak =>
    (hq a.1 (List.mem_map.mpr ⟨a, ha, rfl⟩)) hak.symm
  simp [this]

/-! ## Helper lemmas about `lastTouchN` -/

theorem lastTouchN_le_length (ops : List LRUOp) (k : String) :
    lastTouchN ops k ≤ ops.length := by
  induction ops with
  | nil => simp [lastTouchN]
  | cons op rest ih =>
      simp only [lastTouchN, List.length_cons]
      split
      · split <;> omega
      · omega

theorem lastTouchN_append_single (ops : List LRUOp) (op : LRUOp) (k : String) :
    lastTouchN (ops ++ [op]) k =
      if op.touches k then ops.length + 1 else lastTouchN ops k := by
  induction ops with
  | nil => simp [lastTouchN]
  | cons o rest ih =>
      have hgoal : lastTouchN ((o :: rest) ++ [op]) k =
          (if lastTouchN (rest ++ [op]) k = 0 then (if o.touches k then 1 else 0)
           else lastTouchN (rest ++ [op]) k + 1) := rfl
      rw [hgoal, ih]
      cases hop : op.touches k with
      | true => simp
      | false =>
          simp only [Bool.false_eq_true, if_false]
          rfl

theorem touches_false_of_ne (op : LRUOp) (k k' : String)
    (h : op.touches k = true) (hne : k' ≠ k) : op.touches k' = false := by
  cases op with
  | get kk =>
      simp only [LRUOp.touches, beq_iff_eq] at h
      subst h
      simp only [LRUOp.touches, beq_eq_false_iff_ne, ne_eq]
      exact fun hh => hne hh.symm
  | set kk vv =>
      simp only [LRUOp.touches, beq_iff_eq] at h
      subst h
      simp only [LRUOp.touches, beq_eq_false_iff_ne, ne_eq]
      exact fun hh => hne hh.symm

theorem cacheInv_of_sublist (ms : Nat) (ops : List LRUOp)
    (m m' : List (String × String)) (hs : List.Sublist m' m)
    (h : CacheInv ms ops m) : CacheInv ms ops m' := by
  obtain ⟨hnd, hlen, hpos, hpw⟩ := h
  refine ⟨List.Nodup.sublist (List.Sublist.map _ hs) hnd,
    le_trans (List.Sublist.length_le hs) hlen, ?_,
    List.Pairwise.sublist hs hpw⟩
  intro p hp
  exact hpos p (List.Sublist.subset hs hp)

theorem cacheInv_untouched (ms : Nat) (ops : List LRUOp) (op : LRUOp)
    (m : List (String × String)) (h : CacheInv ms ops m)
    (huntouched : ∀ p ∈ m, op.touches p.1 = false) :
    CacheInv ms (ops ++ [op]) m := by
  obtain ⟨hnd, hlen, hpos, hpw⟩ := h
  refine ⟨hnd, hlen, ?_, ?_⟩
  · intro p hp
    rw [lastTouchN_append_single, huntouched p hp]
    simp only [Bool.false_eq_true, if_false]
    exact hpos p hp
  · refine List.Pairwise.imp_of_mem (fun {a b} ha hb hr => ?_) hpw
    unfold recencyLT at hr ⊢
    rw [lastTouchN_append_single, lastTouchN_append_single,
      huntouched a ha, huntouched b hb]
    simpa using hr

theorem cacheInv_touch_append (ms : Nat) (ops : List LRUOp) (op : LRUOp)
    (m : List (String × String)) (k v : String)
    (h : CacheInv ms ops m) (hk : mapHas m k = false)
    (hlen : m.length < ms) (htouch : op.touches k = true) :
    CacheInv ms (ops ++ [op]) (m ++ [(k, v)]) := by
  obtain ⟨hnd, hmlen, hpos, hpw⟩ := h
  rw [mapHas_eq_false_iff] at hk
  have hmemk : ∀ p ∈ m, p.1 ≠ k := fun p hp hpk =>
    hk (List.mem_map.mpr ⟨p, hp, hpk⟩)
  refine ⟨?_, ?_, ?_, ?_⟩
  · rw [List.map_append]
    refine List.nodup_append.mpr ⟨hnd, by simp, ?_⟩
    intro a ha hb
    simp only [List.map_cons, List.map_nil, List.mem_singleton] at hb
    subst hb
    exact hk ha
  · simp only [List.length_append, List.length_singleton]
    omega
  · intro p hp
    rcases List.mem_append.mp hp with hp' | hp'
    · rw [lastTouchN_append_single,
        touches_false_of_ne op k p.1 htouch (hmemk p hp')]
      simp only [Bool.false_eq_true, if_false]
      exact hpos p hp'
    · simp only [List.mem_singleton] at hp'
      subst hp'
      rw [lastTouchN_append_single]
      simp only [htouch, if_true]
      omega
  · rw [List.pairwise_append]
    refine ⟨?_, by simp, ?_⟩
    · refine List.Pairwise.imp_of_mem (fun {a b} ha hb hr => ?_) hpw
      unfold recencyLT at hr ⊢
      rw [lastTouchN_append_single, lastTouchN_append_single,
        touches_false_of_ne op k a.1 htouch (hmemk a ha),
        touches_false_of_ne op k b.1 htouch (hmemk b hb)]
      simpa using hr
    · intro a ha b hb
      simp only [List.mem_singleton] at hb
      subst hb
      unfold recencyLT
      rw [lastTouchN_append_single, lastTouchN_append_single,
        touches_false_of_ne op k a.1 htouch (hmemk a ha)]
      simp only [htouch, if_true, Bool.false_eq_true, if_false]
      have := lastTouchN_le_length ops a.1
      omega

theorem runOp_maxSize (c : LRUCache) (op : LRUOp) :
    (c.runOp op).maxSize = c.maxSize := by
  cases op with
  | get k =>
      simp only [LRUCache.runOp, LRUCache.get]
      split
      · rfl
      · split <;> rfl
  | set k v => rfl

theorem runOps_maxSize (c : LRUCache) (ops : List LRUOp) :
    (c.runOps ops).maxSize = c.maxSize := by
  induction ops generalizing c with
  | nil => rfl
  | cons op rest ih =>
      have h1 : c.runOps (op :: rest) = (c.runOp op).runOps rest := rfl
      rw [h1, ih, runOp_maxSize]

theorem mapLookup_isSome_of_has (m : List (String × String)) (k : String)
    (h : mapHas m k = true) : ∃ v, mapLookup m k = some v := by
  have hsome : (m.find? (fun p => p.1 == k)).isSome := by
    rw [List.find?_isSome]
    rw [mapHas_iff_mem] at h
    rcases List.mem_map.mp h with ⟨p, hp, hpk⟩
    exact ⟨p, hp, by simp [hpk]⟩
  rcases Option.isSome_iff_exists.mp hsome with ⟨p, hp⟩
  exact ⟨p.2, by simp [mapLookup, hp]⟩

theorem mapHas_false_of_sublist (m m' : List (String × String)) (k : String)
    (hs : List.Sublist m' m) (h : mapHas m k = false) : mapHas m' k = false := by
  rw [mapHas_eq_false_iff] at h ⊢
  intro hmem
  exact h (List.Sublist.subset (List.Sublist.map _ hs) hmem)

theorem cacheInv_runOp (ms : Nat) (hms : 1 ≤ ms) (ops : List LRUOp)
    (c : LRUCache) (hmax : c.maxSize = ms) (hinv : CacheInv ms ops c.cache)
    (op : LRUOp) : CacheInv ms (ops ++ [op]) (c.runOp op).cache := by
  cases op with
  | get k =>
      by_cases hk : mapHas c.cache k = true
      · rcases mapLookup_isSome_of_has _ _ hk with ⟨v, hv⟩
        have hres : (c.runOp (.get k)).cache = mapDelete c.cache k ++ [(k, v)] := by
          simp only [LRUCache.runOp, LRUCache.get, hk, hv, Bool.not_true,
            Bool.false_eq_true, if_false]
          simp [mapSet_of_not_has _ _ _ (mapHas_mapDelete_self c.cache k)]
        rw [hres]
        refine cacheInv_touch_append ms ops _ _ k v ?_ ?_ ?_ ?_
        · exact cacheInv_of_sublist ms ops _ _ (mapDelete_sublist _ _) hinv
        · exact mapHas_mapDelete_self _ _
        · exact lt_of_lt_of_le (mapDelete_length_lt _ _ hk) hinv.2.1
        · simp [LRUOp.touches]
      · have hk' : mapHas c.cache k = false := by
          cases h : mapHas c.cache k
          · rfl
          · exact absurd h hk
        have hres : (c.runOp (.get k)).cache = c.cache := by
          simp [LRUCache.runOp, LRUCache.get, hk']
        rw [hres]
        refine cacheInv_untouched _ _ _ _ hinv ?_
        intro p hp
        refine touches_false_of_ne _ k _ (by simp [LRUOp.touches]) ?_
        rw [mapHas_eq_false_iff] at hk'
        exact fun hpk => hk' (List.mem_map.mpr ⟨p, hp, hpk⟩)
  | set k v =>
      by_cases hk : mapHas c.cache k = true
      · have hres : (c.runOp (.set k v)).cache = mapDelete c.cache k ++ [(k, v)] := by
          simp only [LRUCache.runOp, LRUCache.set, hk, if_true]
          simp [mapSet_of_not_has _ _ _ (mapHas_mapDelete_self c.cache k)]
        rw [hres]
        refine cacheInv_touch_append ms ops _ _ k v ?_ ?_ ?_ ?_
        · exact cacheInv_of_sublist ms ops _ _ (mapDelete_sublist _ _) hinv
        · exact mapHas_mapDelete_self _ _
        · exact lt_of_lt_of_le (mapDelete_length_lt _ _ hk) hinv.2.1
        · simp [LRUOp.touches]
      · have hk' : mapHas c.cache k = false := by
          cases h : mapHas c.cache k
          · rfl
          · exact absurd h hk
        by_cases hfull : ms ≤ c.cache.length
        · have hlen : c.cache.length = ms := le_antisymm hinv.2.1 hfull
          cases hc : c.cache with
          | nil =>
              rw [hc] at hlen
              simp at hlen
              omega
          | cons p rest =>
              have hnd' : ((p :: rest).map Prod.fst).Nodup := by
                have := hinv.1
                rw [hc] at this
                exact this
              have hkrest : mapHas rest k = false := by
                refine mapHas_false_of_sublist _ _ _ ?_ hk'
                rw [hc]
                exact List.sublist_cons_self p rest
              have hres : (c.runOp (.set k v)).cache = rest ++ [(k, v)] := by
                have hk2 : mapHas (p :: rest) k = false := by
                  rw [← hc]
                  exact hk'
                have hcond : ms ≤ (p :: rest).length := by
                  rw [← hc]
                  omega
                simp only [LRUCache.runOp, LRUCache.set, hmax, hc]
                rw [if_neg (by simp [hk2]), if_pos hcond]
                simp only [mapFirstKey, List.head?_cons, Option.map_some']
                rw [mapDelete_head p rest hnd']
                simp [mapSet_of_not_has _ _ _ hkrest]
              rw [hres]
              have hinvrest : CacheInv ms ops rest := by
                refine cacheInv_of_sublist ms ops c.cache rest ?_ hinv
                rw [hc]
                exact List.sublist_cons_self p rest
              refine cacheInv_touch_append ms ops _ _ k v hinvrest hkrest ?_ ?_
              · rw [hc] at hlen
                simp only [List.length_cons] at hlen
                omega
              · simp [LRUOp.touches]
        · have hres : (c.runOp (.set k v)).cache = c.cache ++ [(k, v)] := by
            simp only [LRUCache.runOp, LRUCache.set, hk', Bool.false_eq_true,
              if_false, hmax, hfull]
            simp [mapSet_of_not_has _ _ _ hk']
          rw [hres]
          refine cacheInv_touch_append ms ops _ _ k v hinv hk' (by omega) ?_
          simp [LRUOp.touches]

theorem cacheInv_runOps (ms : Nat) (hms : 1 ≤ ms) (ops : List LRUOp) :
    CacheInv ms ops ((LRUCache.mk ms []).runOps ops).cache := by
  induction ops using List.reverseRecOn with
  | nil =>
      refine ⟨by simp [LRUCache.runOps], by simp [LRUCache.runOps], ?_, ?_⟩
      · intro p hp
        simp [LRUCache.runOps] at hp
      · simp [LRUCache.runOps]
  | append_singleton ops op ih =>
      have h1 : (LRUCache.mk ms []).runOps (ops ++ [op]) =
          ((LRUCache.mk ms []).runOps ops).runOp op := by
        unfold LRUCache.runOps
        rw [List.foldl_append]
        rfl
      rw [h1]
      exact cacheInv_runOp ms hms ops _ (runOps_maxSize _ _) ih op

theorem mapHas_append (a b : List (String × String)) (k : String) :
    mapHas (a ++ b) k = (mapHas a k || mapHas b k) := by
  simp [mapHas, List.any_append]

theorem LRUCache.set_full (c : LRUCache) (k v : String)
    (q : String × String) (restc : List (String × String))
    (hcc : c.cache = q :: restc)
    (hnd : ((q :: restc).map Prod.fst).Nodup)
    (hk : mapHas c.cache k = false) (hfull : c.maxSize ≤ c.cache.length) :
    (c.set k v).cache = restc ++ [(k, v)] := by
  have hk2 : mapHas (q :: restc) k = false := by
    rw [← hcc]
    exact hk
  have hkrestc : mapHas restc k = false :=
    mapHas_false_of_sublist _ _ _ (List.sublist_cons_self q restc) hk2
  have hcond : c.maxSize ≤ (q :: restc).length := by
    rw [← hcc]
    exact hfull
  simp only [LRUCache.set, hcc]
  rw [if_neg (by simp [hk2]), if_pos hcond]
  simp only [mapFirstKey, List.head?_cons, Option.map_some']
  rw [mapDelete_head q restc hnd]
  simp [mapSet_of_not_has _ _ _ hkrestc]

theorem runOps_setsOf (ms : Nat) (hms : 1 ≤ ms) (l : List (String × String))
    (hnd : (l.map Prod.fst).Nodup) :
    ((LRUCache.mk ms []).runOps (setsOf l)).cache = l.drop (l.length - ms) := by
  induction l using List.reverseRecOn with
  | nil => simp [LRUCache.runOps, setsOf]
  | append_singleton l p ih =>
      have hndl : (l.map Prod.fst).Nodup := by
        rw [List.map_append] at hnd
        exact (List.nodup_append.mp hnd).1
      have hknotin : p.1 ∉ l.map Prod.fst := by
        rw [List.map_append] at hnd
        have hdisj := (List.nodup_append.mp hnd).2.2
        intro hmem
        exact hdisj hmem (by simp)
      have hsets : setsOf (l ++ [p]) = setsOf l ++ [LRUOp.set p.1 p.2] := by
        simp [setsOf]
      have hrun : (LRUCache.mk ms []).runOps (setsOf l ++ [LRUOp.set p.1 p.2]) =
          ((LRUCache.mk ms []).runOps (setsOf l)).runOp (LRUOp.set p.1 p.2) := by
        unfold LRUCache.runOps
        rw [List.foldl_append]
        rfl
      rw [hsets, hrun]
      set c := (LRUCache.mk ms []).runOps (setsOf l) with hcdef
      have hcache : c.cache = l.drop (l.length - ms) := ih hndl
      have hcmax : c.maxSize = ms := runOps_maxSize _ _
      have hkc : mapHas c.cache p.1 = false := by
        rw [mapHas_eq_false_iff, hcache]
        intro hmem
        exact hknotin
          (List.Sublist.subset (List.Sublist.map _ (List.drop_sublist ..)) hmem)
      by_cases hcase : l.length < ms
      · have hdrop0 : l.length - ms = 0 := by omega
        have hlenc : c.cache.length < ms := by
          rw [hcache, hdrop0, List.drop_zero]
          omega
        have hres : (c.runOp (.set p.1 p.2)).cache = c.cache ++ [(p.1, p.2)] := by
          simp only [LRUCache.runOp, LRUCache.set, hcmax]
          rw [if_neg (by simp [hkc]), if_neg (by omega)]
          simp [mapSet_of_not_has _ _ _ hkc]
        rw [hres, hcache, hdrop0]
        have hz : (l ++ [p]).length - ms = 0 := by
          simp only [List.length_append, List.length_singleton]
          omega
        rw [hz]
        simp
      · push_neg at hcase
        have hlenc : c.cache.length = ms := by
          rw [hcache, List.length_drop]
          omega
        cases hcc : c.cache with
        | nil =>
            rw [hcc] at hlenc
            simp at hlenc
            omega
        | cons q restc =>
            have hndc : ((q :: restc).map Prod.fst).Nodup := by
              rw [← hcc, hcache]
              exact List.Nodup.sublist
                (List.Sublist.map _ (List.drop_sublist ..)) hndl
            have hres : (c.runOp (.set p.1 p.2)).cache = restc ++ [(p.1, p.2)] := by
              refine LRUCache.set_full c p.1 p.2 q restc hcc hndc hkc ?_
              omega
            rw [hres]
            have htail : restc = l.drop (l.length - ms + 1) := by
              have h1 : (c.cache).tail = l.drop (l.length - ms + 1) := by
                rw [hcache, List.tail_drop]
              rw [hcc] at h1
              simpa using h1
            rw [htail]
            have harith : (l ++ [p]).length - ms = (l.length - ms) + 1 := by
              simp only [List.length_append, List.length_singleton]
              omega
            rw [harith, List.drop_append_of_le_length (by omega)]

theorem lru_eviction_least_recent (ms : Nat) (hms : 1 ≤ ms) (ops : List LRUOp)
    (k v : String)
    (hmiss : mapHas ((LRUCache.mk ms []).runOps ops).cache k = false)
    (hfull : ms ≤ ((LRUCache.mk ms []).runOps ops).cache.length) :
    ∃ fk, mapFirstKey ((LRUCache.mk ms []).runOps ops).cache = some fk ∧
      fk ≠ k ∧
      mapHas (((LRUCache.mk ms []).runOps ops).set k v).cache fk = false ∧
      ∀ p ∈ ((LRUCache.mk ms []).runOps ops).cache, p.1 ≠ fk →
        lastTouchN ops fk < lastTouchN ops p.1 := by
  have hinv := cacheInv_runOps ms hms ops
  set c := (LRUCache.mk ms []).runOps ops with hcdef
  have hcmax : c.maxSize = ms := runOps_maxSize _ _
  cases hcc : c.cache with
  | nil =>
      rw [hcc] at hfull
      simp at hfull
      omega
  | cons q restc =>
      have hndc : ((q :: restc).map Prod.fst).Nodup := by
        rw [← hcc]
        exact hinv.1
      have hqk : q.1 ≠ k := by
        intro hqk
        rw [mapHas_eq_false_iff] at hmiss
        apply hmiss
        rw [hcc]
        exact List.mem_map.mpr ⟨q, by simp, hqk⟩
      refine ⟨q.1, ?_, hqk, ?_, ?_⟩
      · simp [mapFirstKey]
      · have hres : (c.set k v).cache = restc ++ [(k, v)] := by
          refine LRUCache.set_full c k v q restc hcc hndc hmiss ?_
          omega
        rw [hres, mapHas_append]
        have h1 : mapHas restc q.1 = false := by
          rw [mapHas_eq_false_iff]
          intro hmem
          rcases hndc with _ | ⟨hq, _⟩
          rcases List.mem_map.mp hmem with ⟨r, hr, hrk⟩
          exact (hq r.1 (List.mem_map.mpr ⟨r, hr, rfl⟩)) hrk.symm
        have h2 : mapHas [(k, v)] q.1 = false := by
          simp [mapHas]
          exact fun hh => hqk hh.symm
        rw [h1, h2]
        rfl
      · intro p hp hpq
        have hpw := hinv.2.2.2
        rw [hcc] at hpw
        rcases List.pairwise_cons.mp hpw with ⟨hq, _⟩
        rcases List.mem_cons.mp hp with rfl | hp'
        · exact absurd rfl hpq
        · exact hq p hp'

theorem lru_set_existing (ms : Nat) (hms : 1 ≤ ms) (ops : List LRUOp)
    (k v : String)
    (hk : mapHas ((LRUCache.mk ms []).runOps ops).cache k = true) :
    (((LRUCache.mk ms []).runOps ops).set k v).cache =
        mapDelete ((LRUCache.mk ms []).runOps ops).cache k ++ [(k, v)] ∧
    (((LRUCache.mk ms []).runOps ops).set k v).cache.length =
        ((LRUCache.mk ms []).runOps ops).cache.length ∧
    (∀ k', mapHas (((LRUCache.mk ms []).runOps ops).set k v).cache k' =
        mapHas ((LRUCache.mk ms []).runOps ops).cache k') ∧
    (((LRUCache.mk ms []).runOps ops).set k v).cache.getLast? = some (k, v) := by
  have hinv := cacheInv_runOps ms hms ops
  set c := (LRUCache.mk ms []).runOps ops with hcdef
  have hres : (c.set k v).cache = mapDelete c.cache k ++ [(k, v)] := by
    simp only [LRUCache.set]
    rw [if_pos (by simp [hk])]
    simp [mapSet_of_not_has _ _ _ (mapHas_mapDelete_self _ _)]
  refine ⟨hres, ?_, ?_, ?_⟩
  · rw [hres]
    have := mapDelete_length_succ c.cache k hinv.1 hk
    simp only [List.length_append, List.length_singleton]
    omega
  · intro k'
    rw [hres, mapHas_append]
    by_cases hkk : k' = k
    · subst hkk
      rw [hk]
      simp [mapHas]
    · rw [mapHas_mapDelete_ne _ _ _ hkk]
      have h2 : mapHas [(k, v)] k' = false := by
        simp [mapHas]
        exact fun hh => hkk hh.symm
      rw [h2]
      simp
  · rw [hres]
    exact List.getLast?_concat _

theorem lru_overfill_scenario (ms : Nat) (hms : 1 ≤ ms)
    (l : List (String × String)) (hnd : (l.map Prod.fst).Nodup)
    (hlen : l.length = ms + 1) :
    (∀ p0, l.head? = some p0 →
      mapHas ((LRUCache.mk ms []).runOps (setsOf l)).cache p0.1 = false) ∧
    (∀ p ∈ l.tail,
      mapHas ((LRUCache.mk ms []).runOps (setsOf l)).cache p.1 = true) := by
  have hcache := runOps_setsOf ms hms l hnd
  rw [hlen] at hcache
  have hdrop : ms + 1 - ms = 1 := by omega
  rw [hdrop] at hcache
  constructor
  · intro p0 hp0
    rw [mapHas_eq_false_iff, hcache]
    cases l with
    | nil => simp at hp0
    | cons q t =>
        simp only [List.head?_cons, Option.some.injEq] at hp0
        subst hp0
        simp only [List.drop_one, List.tail_cons]
        intro hmem
        rw [List.map_cons] at hnd
        rcases hnd with _ | ⟨hq, _⟩
        rcases List.mem_map.mp hmem with ⟨r, hr, hrk⟩
        exact (hq r.1 (List.mem_map.mpr ⟨r, hr, rfl⟩)) hrk.symm
  · intro p hp
    rw [mapHas_iff_mem, hcache, List.drop_one]
    exact List.mem_map.mpr ⟨p, hp, rfl⟩

/-! ## Claim theorems -/

/-- C1: for every sequence of `set`/`get` operations on the LRU thumbnail
cache (capacity at least one, as the thumbnail cache's 200 is), starting
from the empty cache: the cache never holds more than `maxSize` entries;
the entry evicted when a new key is inserted at capacity is the first
entry of the map, which is strictly least recently touched among all
cached entries; after inserting `maxSize + 1` distinct keys with no
intervening gets, the first-inserted key is absent and all others are
present; and `set` on an already-present key keeps the key set and size
(no eviction) while moving the entry to the most-recently-used end. -/
theorem c1_lru_cache_discipline :
    (∀ (ms : Nat) (ops : List LRUOp), 1 ≤ ms →
      ((LRUCache.mk ms []).runOps ops).cache.length ≤ ms) ∧
    (∀ (ms : Nat) (ops : List LRUOp) (k v : String), 1 ≤ ms →
      mapHas ((LRUCache.mk ms []).runOps ops).cache k = false →
      ms ≤ ((LRUCache.mk ms []).runOps ops).cache.length →
      ∃ fk, mapFirstKey ((LRUCache.mk ms []).runOps ops).cache = some fk ∧
        fk ≠ k ∧
        mapHas (((LRUCache.mk ms []).runOps ops).set k v).cache fk = false ∧
        ∀ p ∈ ((LRUCache.mk ms []).runOps ops).cache, p.1 ≠ fk →
          lastTouchN ops fk < lastTouchN ops p.1) ∧
    (∀ (ms : Nat) (l : List (String × String)), 1 ≤ ms →
      (l.map Prod.fst).Nodup → l.length = ms + 1 →
      (∀ p0, l.head? = some p0 →
        mapHas ((LRUCache.mk ms []).runOps (setsOf l)).cache p0.1 = false) ∧
      (∀ p ∈ l.tail,
        mapHas ((LRUCache.mk ms []).runOps (setsOf l)).cache p.1 = true)) ∧
    (∀ (ms : Nat) (ops : List LRUOp) (k v : String), 1 ≤ ms →
      mapHas ((LRUCache.mk ms []).runOps ops).cache k = true →
      (((LRUCache.mk ms []).runOps ops).set k v).cache.length =
          ((LRUCache.mk ms []).runOps ops).cache.length ∧
      (∀ k', mapHas (((LRUCache.mk ms []).runOps ops).set k v).cache k' =
          mapHas ((LRUCache.mk ms []).runOps ops).cache k') ∧
      (((LRUCache.mk ms []).runOps ops).set k v).cache.getLast? = some (k, v)) := by
  refine ⟨?_, ?_, ?_, ?_⟩
  · intro ms ops hms
    exact (cacheInv_runOps ms hms ops).2.1
  · intro ms ops k v hms hmiss hfull
    exact lru_eviction_least_recent ms hms ops k v hmiss hfull
  · intro ms l hms hnd hlen
    exact lru_overfill_scenario ms hms l hnd hlen
  · intro ms ops k v hms hk
    exact (lru_set_existing ms hms ops k v hk).2

theorem c1_lru_cache_discipline_witness :
    1 ≤ 2 ∧
    ((LRUCache.mk 2 []).runOps
      [.set "a" "1", .set "b" "2", .get "a", .set "c" "3"]).cache.length ≤ 2 :=
  ⟨by decide,
   c1_lru_cache_discipline.1 2
     [.set "a" "1", .set "b" "2", .get "a", .set "c" "3"] (by decide)⟩

/-- C2: the claim says a request for a file whose thumbnail is cached
returns the cached payload immediately.  The code cannot: line 169 invokes
`this.thumbnailCache.has`, a method `class LRUCache` never declares, so
every `getVideoThumbnailWorker` call — cache hit or not — throws a
`TypeError` (the async function rejects) before any cache read or worker
dispatch.  This theorem evaluates the embedded code on an arbitrary
cache-hit state. -/
theorem c2_cache_hit_throws_type_error (cache : LRUCache)
    (busyFlags : List Bool) (filePath : String)
    (_hhit : mapHas cache.cache filePath = true) :
    getVideoThumbnailWorker cache busyFlags filePath =
      .error "TypeError: this.thumbnailCache.has is not a function" := rfl

theorem c2_cache_hit_throws_type_error_witness :
    mapHas (LRUCache.mk 200 [("Media/clip.mp4", "dataurl")]).cache
        "Media/clip.mp4" = true ∧
    getVideoThumbnailWorker (LRUCache.mk 200 [("Media/clip.mp4", "dataurl")])
        [false, false, false, false] "Media/clip.mp4" =
      .error "TypeError: this.thumbnailCache.has is not a function" :=
  ⟨by decide,
   c2_cache_hit_throws_type_error
     (LRUCache.mk 200 [("Media/clip.mp4", "dataurl")])
     [false, false, false, false] "Media/clip.mp4" (by decide)⟩

/-- C3: the claim says the slot is marked idle exactly once and that a
timeout after an on-time response has no further effect.  The 5-second
watchdog is never cleared, so after a correlated response resolves the
request, the watchdog still fires: it marks the slot idle a second time
and invokes the fallback capture once (first timeline).  The parts that
hold: the promise settles exactly once with the worker's thumbnail, and a
late response after the timeout is ignored because the listener was
detached (second timeline, evaluated at a concrete run). -/
theorem c3_watchdog_not_cleared :
    (runDispatch "v.mp4-1" "v.mp4" (LRUCache.mk 200 [])
        [.workerMessage "v.mp4-1" (some "thumbA"), .timerFire]).idleMarkings = 2 ∧
    (runDispatch "v.mp4-1" "v.mp4" (LRUCache.mk 200 [])
        [.workerMessage "v.mp4-1" (some "thumbA"), .timerFire]).fallbackInvocations = 1 ∧
    (runDispatch "v.mp4-1" "v.mp4" (LRUCache.mk 200 [])
        [.workerMessage "v.mp4-1" (some "thumbA"), .timerFire]).resolvedVia =
      some (.workerThumbnail "thumbA") ∧
    (runDispatch "v.mp4-1" "v.mp4" (LRUCache.mk 200 [])
        [.timerFire, .workerMessage "v.mp4-1" (some "thumbA")]).resolvedVia =
      some .watchdogTimeout ∧
    (runDispatch "v.mp4-1" "v.mp4" (LRUCache.mk 200 [])
        [.timerFire, .workerMessage "v.mp4-1" (some "thumbA")]).idleMarkings = 1 := by
  refine ⟨rfl, rfl, rfl, rfl, rfl⟩

/-- C4: `loadMediaElement` with a path already in the pending-request set
is a silent no-op that leaves the set unchanged; for a path not pending,
the entry step registers it atomically, a second concurrent entry for the
same path is the no-op, and the `finally` step removes the path, restoring
the original set whether or not the load body threw. -/
theorem c4_pending_request_discipline (pending : List String) (f : MediaFile)
    (b : Bool) :
    (f.path ∈ pending →
      loadMediaElement pending (some f) b = (.noopPending, pending)) ∧
    (f.path ∉ pending →
      loadMediaElement pending (some f) b = (.completed b, pending) ∧
      loadEnter pending f.path = (true, pending ++ [f.path]) ∧
      loadEnter (pending ++ [f.path]) f.path = (false, pending ++ [f.path]) ∧
      loadExit (pending ++ [f.path]) f.path = pending) := by
  constructor
  · intro hmem
    simp [loadMediaElement, loadEnter, hmem]
  · intro hmem
    have hfilter : pending.filter (fun x => !(x == f.path)) = pending := by
      apply List.filter_eq_self.mpr
      intro a ha
      have hne : a ≠ f.path := fun h => hmem (h ▸ ha)
      simp [hne]
    refine ⟨?_, ?_, ?_, ?_⟩
    · simp [loadMediaElement, loadEnter, hmem, pendingAdd, loadExit,
        pendingRemove, List.filter_append, hfilter]
    · simp [loadEnter, hmem, pendingAdd]
    · simp [loadEnter]
    · simp [loadExit, pendingRemove, List.filter_append, hfilter]

theorem c4_pending_request_discipline_witness :
    ("Media/a.mp4" ∉ (["Media/b.jpg"] : List String)) ∧
    (loadMediaElement ["Media/b.jpg"] (some (MediaFile.mk "a.mp4" "Media/a.mp4")) true =
        (.completed true, ["Media/b.jpg"]) ∧
      loadEnter ["Media/b.jpg"] "Media/a.mp4" =
        (true, ["Media/b.jpg"] ++ ["Media/a.mp4"]) ∧
      loadEnter (["Media/b.jpg"] ++ ["Media/a.mp4"]) "Media/a.mp4" =
        (false, ["Media/b.jpg"] ++ ["Media/a.mp4"]) ∧
      loadExit (["Media/b.jpg"] ++ ["Media/a.mp4"]) "Media/a.mp4" =
        ["Media/b.jpg"]) :=
  ⟨by decide,
   (c4_pending_request_discipline ["Media/b.jpg"]
     (MediaFile.mk "a.mp4" "Media/a.mp4") true).2 (by decide)⟩

/-- C5 counterexample: deleting the last remaining file (confirmed, with
gallery back-reference and callback present) schedules two refresh
notifications, not one — `closeLightbox` schedules one (lines 1313-1317)
and `deleteCurrentFile` always schedules another (lines 1021-1027). -/
theorem c5_counterexample :
    ¬ ((deleteCurrentFile
        (LightboxState.mk 0 [MediaFile.mk "a.jpg" "Photos/a.jpg"]
          false false none true true)
        true .success true).2.refreshesScheduled = 1) := by
  decide

/-- C5 (amended): deleting the last remaining file closes the lightbox,
empties the in-memory list, and schedules exactly two deferred refresh
notifications for the originating gallery — one from `closeLightbox` and
one from the delete handler's unconditional refresh. -/
theorem c5_delete_to_empty_double_refresh (st : LightboxState) (f : MediaFile)
    (hfiles : st.mediaFiles = [f]) (hidx : st.currentIndex = 0)
    (hgc : st.hasGalleryContainer = true) (hcb : st.hasOnFileDeleted = true) :
    (deleteCurrentFile st true .success true).2.lightboxClosed = true ∧
    (deleteCurrentFile st true .success true).1.mediaFiles = [] ∧
    (deleteCurrentFile st true .success true).2.refreshesScheduled = 2 := by
  rcases st with ⟨ci, mf, rm, sa, si, hofd, hgcb⟩
  simp only at hfiles hidx hgc hcb
  subst hfiles
  subst hidx
  subst hgc
  subst hcb
  simp [deleteCurrentFile, jsIndex, jsSplice, closeLightbox, noDeleteEffects]

theorem c5_delete_to_empty_double_refresh_witness :
    ((LightboxState.mk 0 [MediaFile.mk "a.jpg" "Photos/a.jpg"]
        false false none true true).mediaFiles =
      [MediaFile.mk "a.jpg" "Photos/a.jpg"]) ∧
    ((deleteCurrentFile
        (LightboxState.mk 0 [MediaFile.mk "a.jpg" "Photos/a.jpg"]
          false false none true true)
        true .success true).2.lightboxClosed = true ∧
      (deleteCurrentFile
        (LightboxState.mk 0 [MediaFile.mk "a.jpg" "Photos/a.jpg"]
          false false none true true)
        true .success true).1.mediaFiles = [] ∧
      (deleteCurrentFile
        (LightboxState.mk 0 [MediaFile.mk "a.jpg" "Photos/a.jpg"]
          false false none true true)
        true .success true).2.refreshesScheduled = 2) :=
  ⟨by decide,
   c5_delete_to_empty_double_refresh
     (LightboxState.mk 0 [MediaFile.mk "a.jpg" "Photos/a.jpg"]
       false false none true true)
     (MediaFile.mk "a.jpg" "Photos/a.jpg") rfl rfl rfl rfl⟩

/-- C6 counterexample: `vault.delete` is called without `await` (line
1005), so a deletion that fails asynchronously is never observed by the
`try`/`catch`: the file is still removed from the in-memory list — the
claim's "state left unchanged" is false on the code. -/
theorem c6_counterexample :
    ¬ ((deleteCurrentFile
        (LightboxState.mk 0 [MediaFile.mk "a.jpg" "Photos/a.jpg"]
          false false none true true)
        true (.asyncReject "EPERM") true).1.mediaFiles =
      [MediaFile.mk "a.jpg" "Photos/a.jpg"]) := by
  decide

/-- C6 (amended): only a synchronously thrown deletion failure is surfaced
as an error notice with the lightbox state left unchanged and no refresh
scheduled; an asynchronous failure (rejected promise, not awaited) is
unobserved — the call proceeds exactly as on success, optimistically
removing the file, except that the rejection is left unhandled. -/
theorem c6_delete_failure_modes (st : LightboxState) (msg : String) (ov : Bool)
    (hcur : (jsIndex st.mediaFiles st.currentIndex).isSome = true) :
    deleteCurrentFile st true (.syncThrow msg) ov =
      (st, { confirmPrompted := true, vaultDeleteCalled := true,
             unhandledRejection := false,
             notices := ["Error deleting file: " ++ msg],
             refreshesScheduled := 0, lightboxClosed := false,
             mediaRerendered := false }) ∧
    deleteCurrentFile st true (.asyncReject msg) ov =
      ((deleteCurrentFile st true .success ov).1,
       { (deleteCurrentFile st true .success ov).2 with
           unhandledRejection := true }) := by
  rcases hj : jsIndex st.mediaFiles st.currentIndex with _ | f
  · rw [hj] at hcur
    simp at hcur
  · constructor
    · simp [deleteCurrentFile, hj]
    · simp only [deleteCurrentFile, hj, Bool.not_true, Bool.false_eq_true,
        if_false]
      by_cases hlen : (jsSplice st.mediaFiles st.currentIndex).length = 0
      · simp [hlen, closeLightbox]
      · simp [hlen]

theorem c6_delete_failure_modes_witness :
    ((jsIndex (LightboxState.mk 0 [MediaFile.mk "a.jpg" "Photos/a.jpg"]
        false false none true true).mediaFiles
      (LightboxState.mk 0 [MediaFile.mk "a.jpg" "Photos/a.jpg"]
        false false none true true).currentIndex).isSome = true) ∧
    (deleteCurrentFile
        (LightboxState.mk 0 [MediaFile.mk "a.jpg" "Photos/a.jpg"]
          false false none true true) true (.syncThrow "EPERM") true =
      ((LightboxState.mk 0 [MediaFile.mk "a.jpg" "Photos/a.jpg"]
          false false none true true),
       { confirmPrompted := true, vaultDeleteCalled := true,
         unhandledRejection := false,
         notices := ["Error deleting file: " ++ "EPERM"],
         refreshesScheduled := 0, lightboxClosed := false,
         mediaRerendered := false }) ∧
     deleteCurrentFile
        (LightboxState.mk 0 [MediaFile.mk "a.jpg" "Photos/a.jpg"]
          false false none true true) true (.asyncReject "EPERM") true =
      ((deleteCurrentFile
          (LightboxState.mk 0 [MediaFile.mk "a.jpg" "Photos/a.jpg"]
            false false none true true) true .success true).1,
       { (deleteCurrentFile
          (LightboxState.mk 0 [MediaFile.mk "a.jpg" "Photos/a.jpg"]
            false false none true true) true .success true).2 with
           unhandledRejection := true })) :=
  ⟨by decide,
   c6_delete_failure_modes
     (LightboxState.mk 0 [MediaFile.mk "a.jpg" "Photos/a.jpg"]
       false false none true true) "EPERM" true (by decide)⟩

/-- C7 counterexample: the delete-triggered refresh path clears the
thumbnail cache after all — `refreshCurrentGallery` re-runs
`createGallery`, whose first act is the unconditional cache clear — so an
entry present before the refresh is gone afterwards. -/
theorem c7_counterexample :
    ¬ (mapHas (refreshCurrentGallery
        (PluginState.mk (LRUCache.mk 200 [("Photos/v.mp4", "thumbdata")]) [])
        true true true true).thumbnailCache.cache "Photos/v.mp4" = true) := by
  decide

/-- C7 (amended): the thumbnail cache (and the pending-request map) is
cleared wholesale at the start of every gallery render, and the
delete-triggered refresh path clears it too, because
`refreshCurrentGallery` (with its container, parent, config and context
present) just re-invokes `createGallery`. -/
theorem c7_cache_cleared_on_both_paths (s : PluginState) :
    (createGallery s).thumbnailCache.cache = [] ∧
    (createGallery s).pendingRequests = [] ∧
    refreshCurrentGallery s true true true true = createGallery s := by
  refine ⟨rfl, rfl, rfl⟩

/-- C8: non-random navigation on a list of length `L ≥ 1` with direction
`±1` from a valid index lands on `(index + direction + L) mod L`; in
particular the last index wraps forward to 0, index 0 wraps backward to
`L - 1`, and a one-element list leaves the index unchanged. -/
theorem c8_navigate_wraparound (st : LightboxState) (dir : Int)
    (draws : List Int) (hrand : st.randomMode = false)
    (hL : 1 ≤ st.mediaFiles.length) (hdir : dir = 1 ∨ dir = -1)
    (h0 : 0 ≤ st.currentIndex)
    (hlt : st.currentIndex < (st.mediaFiles.length : Int)) :
    (navigate st dir draws).currentIndex =
      (st.currentIndex + dir + (st.mediaFiles.length : Int)) %
        (st.mediaFiles.length : Int) ∧
    (st.currentIndex = (st.mediaFiles.length : Int) - 1 → dir = 1 →
      (navigate st dir draws).currentIndex = 0) ∧
    (st.currentIndex = 0 → dir = -1 →
      (navigate st dir draws).currentIndex =
        (st.mediaFiles.length : Int) - 1) ∧
    (st.mediaFiles.length = 1 →
      (navigate st dir draws).currentIndex = st.currentIndex) := by
  have hnav : (navigate st dir draws).currentIndex =
      jsRem (st.currentIndex + dir + (st.mediaFiles.length : Int))
        (st.mediaFiles.length : Int) := by
    simp [navigate, hrand]
  set L : Int := (st.mediaFiles.length : Int) with hLdef
  have hLpos : 0 < L := by omega
  have hnn : 0 ≤ st.currentIndex + dir + L := by
    rcases hdir with rfl | rfl <;> omega
  have htmod : jsRem (st.currentIndex + dir + L) L =
      (st.currentIndex + dir + L) % L := by
    unfold jsRem
    rcases Int.eq_ofNat_of_zero_le hnn with ⟨a, ha⟩
    rcases Int.eq_ofNat_of_zero_le (le_of_lt hLpos) with ⟨b, hb⟩
    rw [ha, hb]
    show Int.tmod (Int.ofNat a) (Int.ofNat b) = Int.ofNat a % Int.ofNat b
    rw [show Int.tmod (Int.ofNat a) (Int.ofNat b) = Int.ofNat (a % b) from rfl]
    show ((a % b : Nat) : Int) = ((a : Int)) % ((b : Int))
    omega
  refine ⟨?_, ?_, ?_, ?_⟩
  · rw [hnav, htmod]
  · intro h1 h2
    rw [hnav, htmod, h1, h2]
    have he : L - 1 + 1 + L = L * 2 := by ring
    rw [he, Int.mul_emod_right]
  · intro h1 h2
    rw [hnav, htmod, h1, h2]
    have he : (0 : Int) + -1 + L = L - 1 := by ring
    rw [he]
    exact Int.emod_eq_of_lt (by omega) (by omega)
  · intro h1
    have hL1 : L = 1 := by omega
    rw [hnav, htmod, hL1, Int.emod_one]
    omega

theorem c8_navigate_wraparound_witness :
    ((LightboxState.mk 2 [MediaFile.mk "a" "a", MediaFile.mk "b" "b",
        MediaFile.mk "c" "c"] false false none true true).randomMode = false ∧
      (1 : Int) = 1 ∨ (1 : Int) = -1) ∧
    (navigate (LightboxState.mk 2 [MediaFile.mk "a" "a", MediaFile.mk "b" "b",
        MediaFile.mk "c" "c"] false false none true true) 1 []).currentIndex =
      ((LightboxState.mk 2 [MediaFile.mk "a" "a", MediaFile.mk "b" "b",
        MediaFile.mk "c" "c"] false false none true true).currentIndex + 1 +
        ((LightboxState.mk 2 [MediaFile.mk "a" "a", MediaFile.mk "b" "b",
          MediaFile.mk "c" "c"] false false none true true).mediaFiles.length : Int)) %
        ((LightboxState.mk 2 [MediaFile.mk "a" "a", MediaFile.mk "b" "b",
          MediaFile.mk "c" "c"] false false none true true).mediaFiles.length : Int) :=
  ⟨Or.inl ⟨rfl, rfl⟩,
   (c8_navigate_wraparound
     (LightboxState.mk 2 [MediaFile.mk "a" "a", MediaFile.mk "b" "b",
       MediaFile.mk "c" "c"] false false none true true)
     1 [] rfl (by decide) (Or.inl rfl) (by decide) (by decide)).1⟩

/-- C9 counterexample: opening a new lightbox over an existing one whose
slideshow timer is running does not clear that timer — the existing
overlay is removed with a plain `remove()` (line 1085) and its `cleanup`
event is never dispatched. -/
theorem c9_counterexample :
    ¬ ((openMediaLightboxPrelude
        (LightboxDocWorld.mk 1 true true true)).oldSlideshowTimerActive = false) := by
  decide

/-- C9 (amended): opening a lightbox leaves exactly one overlay element —
the existing overlay element, if any, is removed before the new one is
appended — but the old instance's slideshow timer stays active and its
keyboard and wheel listeners stay attached, because the plain element
removal does not dispatch the instance's `cleanup` event. -/
theorem c9_open_replaces_overlay_without_teardown (w : LightboxDocWorld)
    (hw : w.overlayCount ≤ 1) :
    (openMediaLightboxPrelude w).overlayCount = 1 ∧
    (openMediaLightboxPrelude w).oldSlideshowTimerActive =
      w.oldSlideshowTimerActive ∧
    (openMediaLightboxPrelude w).oldKeydownListenerAttached =
      w.oldKeydownListenerAttached ∧
    (openMediaLightboxPrelude w).oldWheelListenerAttached =
      w.oldWheelListenerAttached := by
  rcases w with ⟨oc, ts, kd, wh⟩
  simp only at hw
  by_cases hoc : oc = 0
  · subst hoc
    simp [openMediaLightboxPrelude]
  · simp only [openMediaLightboxPrelude, hoc, if_neg]
    simp
    omega

theorem c9_open_replaces_overlay_without_teardown_witness :
    ((LightboxDocWorld.mk 1 true true true).overlayCount ≤ 1) ∧
    ((openMediaLightboxPrelude
        (LightboxDocWorld.mk 1 true true true)).overlayCount = 1 ∧
      (openMediaLightboxPrelude
        (LightboxDocWorld.mk 1 true true true)).oldSlideshowTimerActive =
        (LightboxDocWorld.mk 1 true true true).oldSlideshowTimerActive ∧
      (openMediaLightboxPrelude
        (LightboxDocWorld.mk 1 true true true)).oldKeydownListenerAttached =
        (LightboxDocWorld.mk 1 true true true).oldKeydownListenerAttached ∧
      (openMediaLightboxPrelude
        (LightboxDocWorld.mk 1 true true true)).oldWheelListenerAttached =
        (LightboxDocWorld.mk 1 true true true).oldWheelListenerAttached) :=
  ⟨by decide,
   c9_open_replaces_overlay_without_teardown
     (LightboxDocWorld.mk 1 true true true) (by decide)⟩

/-- C10: when no file sits at `currentIndex` — the list is empty or the
index is out of bounds — `deleteCurrentFile` returns before the confirm
dialog: the state (list, index, timers) is returned unchanged, no vault
deletion happens, no notice is shown and no refresh is scheduled. -/
theorem c10_delete_without_current_file_is_noop (st : LightboxState)
    (confirmAnswer : Bool) (vb : VaultDeleteBehavior) (ov : Bool)
    (h : jsIndex st.mediaFiles st.currentIndex = none) :
    deleteCurrentFile st confirmAnswer vb ov = (st, noDeleteEffects) := by
  simp [deleteCurrentFile, h]

theorem c10_delete_without_current_file_is_noop_witness :
    (jsIndex (LightboxState.mk 0 [] false false (some 7) true true).mediaFiles
      (LightboxState.mk 0 [] false false (some 7) true true).currentIndex = none) ∧
    deleteCurrentFile (LightboxState.mk 0 [] false false (some 7) true true)
        true .success true =
      ((LightboxState.mk 0 [] false false (some 7) true true), noDeleteEffects) :=
  ⟨by decide,
   c10_delete_without_current_file_is_noop
     (LightboxState.mk 0 [] false false (some 7) true true) true .success true
     (by decide)⟩
